import Mathlib

/-!
Verification of the singly-linked-list LIFO stack from
`src/stack/linked_list_stack.rs`.

The Rust code is shallowly embedded: `Node<T>` (a value plus an owned
`Option<Box<Node<T>>>` link) becomes a nested inductive with an
`Option (Node T)` link (`Box` is the identity on values), and
`LinkedListStack<T>` (fields `top : Option<Box<Node<T>>>`, `len : usize`)
becomes a structure with `top : Option (Node T)` and `len : Nat`.
Mutating methods become state-passing functions.
-/

namespace DataStructures

/-- Embeds `Node<T> { data: T, next: Option<Box<Node<T>>> }`. -/
inductive Node (T : Type) : Type where
  | mk (data : T) (next : Option (Node T)) : Node T

/-- Field accessor for `data`. -/
def Node.data {T : Type} : Node T → T
  | .mk d _ => d

/-- Field accessor for `next`. -/
def Node.next {T : Type} : Node T → Option (Node T)
  | .mk _ n => n

/-- Embeds `LinkedListStack<T> { top: Option<Box<Node<T>>>, len: usize }`. -/
structure LinkedListStack (T : Type) : Type where
  top : Option (Node T)
  len : Nat

namespace LinkedListStack

variable {T : Type}

/-- Embeds `LinkedListStack::new`: `LinkedListStack { top: None, len: 0 }`. -/
def new : LinkedListStack T := { top := none, len := 0 }

/-- Embeds `LinkedListStack::push`.  The source builds a default node and
then overwrites both fields (`node.data = data; node.next = self.top.take()`),
which nets to a node holding `data` whose link is the previous `top`; the new
node becomes `top` and `len` is incremented. -/
def push (s : LinkedListStack T) (data : T) : LinkedListStack T :=
  let node : Node T := Node.mk data s.top
  { top := some node, len := s.len + 1 }

/-- Embeds `LinkedListStack::pop`.  `self.top.take()` empties `top`; mapping
over the taken value reinstates `node.next` as the new `top`, decrements
`len` and yields `node.data`.  When `top` was `None` the map does nothing and
the state is returned as it stands.  Returns the popped value together with
the post-state. -/
def pop (s : LinkedListStack T) : Option T × LinkedListStack T :=
  match s.top with
  | none => (none, { top := none, len := s.len })
  | some node => (some node.data, { top := node.next, len := s.len - 1 })

/-- Embeds `LinkedListStack::is_empty`: `self.len == 0`. -/
def is_empty (s : LinkedListStack T) : Bool := s.len == 0

/-- Embeds `LinkedListStack::peak` (the source's spelling of peek):
`self.top.as_ref().map(|node| &node.data)`. -/
def peak (s : LinkedListStack T) : Option T := s.top.map Node.data

end LinkedListStack

/-- Number of nodes reachable from a link by following `next`. -/
def chainCount {T : Type} : Option (Node T) → Nat
  | none => 0
  | some (.mk _ next) => 1 + chainCount next

/-- The values stored along a chain, head (top) first. -/
def chainList {T : Type} : Option (Node T) → List T
  | none => []
  | some (.mk d next) => d :: chainList next

/-- Embeds the loop of `impl Display for LinkedListStack`: while the cursor
holds a node, write `"{}"` for the first node and `" -> {}"` afterwards,
then advance to `next`. -/
def fmtLoop {T : Type} [ToString T] : Option (Node T) → Bool → String
  | none, _ => ""
  | some (.mk d next), true => toString d ++ fmtLoop next false
  | some (.mk d next), false => " -> " ++ toString d ++ fmtLoop next false

/-- Embeds `Display::fmt`: the loop starts at `self.top` with `first = true`. -/
def LinkedListStack.display {T : Type} [ToString T] (s : LinkedListStack T) : String :=
  fmtLoop s.top true

/-- States reachable from `new` by `push` and `pop`. -/
inductive Reachable {T : Type} : LinkedListStack T → Prop where
  | new : Reachable LinkedListStack.new
  | push {s : LinkedListStack T} (v : T) : Reachable s → Reachable (s.push v)
  | pop {s : LinkedListStack T} : Reachable s → Reachable (s.pop).2

/-- Modelled from the spec: values `"separated by the literal token
`\" -> \"`, with no leading/trailing separator, and the empty string when the
stack has no elements"`. -/
def joinSep (sep : String) : List String → String
  | [] => ""
  | [x] => x
  | x :: y :: rest => x ++ sep ++ joinSep sep (y :: rest)

/-- Pushing a list of values in order, left to right. -/
def pushAll {T : Type} (s : LinkedListStack T) : List T → LinkedListStack T
  | [] => s
  | v :: vs => pushAll (s.push v) vs

/-- The string the display loop emits for all nodes after the first. -/
def fmtRest {T : Type} [ToString T] : List T → String
  | [] => ""
  | x :: rest => " -> " ++ toString x ++ fmtRest rest

/- ------------------------------------------------------------------ -/
/- Helper lemmas shared by the claim theorems.                         -/
/- ------------------------------------------------------------------ -/

theorem chainCount_eq_zero {T : Type} (c : Option (Node T)) :
    chainCount c = 0 ↔ c = none := by
  cases c with
  | none => simp [chainCount]
  | some n => cases n with
    | mk d next => simp [chainCount]

/-- The structural invariant holds in every reachable state. -/
theorem stack_inv {T : Type} {s : LinkedListStack T} (h : Reachable s) :
    s.len = chainCount s.top ∧ (s.top = none ↔ s.len = 0) := by
  induction h with
  | new => exact ⟨by simp [LinkedListStack.new, chainCount],
      by simp [LinkedListStack.new]⟩
  | push v hs ih =>
    rcases ih with ⟨hc, _⟩
    constructor
    · simp [LinkedListStack.push, chainCount, hc, Nat.add_comm]
    · simp [LinkedListStack.push]
  | pop hs ih =>
    rcases ih with ⟨hc, hiff⟩
    rename_i s
    cases htop : s.top with
    | none =>
      have hl : s.len = 0 := hiff.mp htop
      constructor
      · simp [LinkedListStack.pop, htop, hl, chainCount]
      · simp [LinkedListStack.pop, htop, hl]
    | some node =>
      cases node with
      | mk d next =>
        have hc' : s.len = 1 + chainCount next := by
          rw [hc, htop]; simp [chainCount]
        constructor
        · simp [LinkedListStack.pop, htop, hc', Node.next]
        · simp [LinkedListStack.pop, htop, hc', Node.next]
          exact Iff.symm (chainCount_eq_zero next)

theorem pushAll_len {T : Type} :
    ∀ (vs : List T) (s : LinkedListStack T),
      (pushAll s vs).len = s.len + vs.length
  | [], s => rfl
  | v :: vs, s => by
    rw [pushAll, pushAll_len vs]
    simp [LinkedListStack.push]
    omega

theorem pushAll_peak {T : Type} :
    ∀ (vs : List T) (s : LinkedListStack T), vs ≠ [] →
      (pushAll s vs).peak = vs.getLast?
  | [v], s, _ => by
    simp [pushAll, LinkedListStack.push, LinkedListStack.peak, Node.data]
  | v :: y :: rest, s, _ => by
    rw [pushAll, pushAll_peak (y :: rest) (s.push v) (by simp),
      List.getLast?_cons_cons]

theorem fmtLoop_false_eq {T : Type} [ToString T] :
    ∀ (c : Option (Node T)), fmtLoop c false = fmtRest (chainList c)
  | none => by simp [fmtLoop, chainList, fmtRest]
  | some (.mk d next) => by
    rw [fmtLoop, chainList, fmtRest, fmtLoop_false_eq next]

theorem joinSep_toString_cons {T : Type} [ToString T] :
    ∀ (rest : List T) (x : T),
      joinSep " -> " ((x :: rest).map toString) = toString x ++ fmtRest rest
  | [], x => by simp [joinSep, fmtRest]
  | y :: rest, x => by
    rw [List.map_cons, List.map_cons, joinSep, fmtRest,
      ← List.map_cons, joinSep_toString_cons rest y]
    simp [String.append_assoc]

theorem fmtLoop_true_eq {T : Type} [ToString T] (c : Option (Node T)) :
    fmtLoop c true = joinSep " -> " ((chainList c).map toString) := by
  cases c with
  | none => simp [fmtLoop, chainList, joinSep]
  | some n =>
    cases n with
    | mk d next =>
      rw [fmtLoop, chainList, joinSep_toString_cons, fmtLoop_false_eq next]

/- ------------------------------------------------------------------ -/
/- Claim theorems.                                                     -/
/- ------------------------------------------------------------------ -/

/-- Claim C1: LIFO ordering — for every stack and values `v1, v2, v3`,
pushing `v1, v2, v3` in that order and then calling pop three times returns
`some v3`, `some v2`, `some v1` in that order. -/
theorem claim_C1_lifo_ordering {T : Type} (s : LinkedListStack T)
    (v1 v2 v3 : T) :
    ((((s.push v1).push v2).push v3).pop).1 = some v3 ∧
    (((((s.push v1).push v2).push v3).pop).2.pop).1 = some v2 ∧
    ((((((s.push v1).push v2).push v3).pop).2.pop).2.pop).1 = some v1 := by
  simp [LinkedListStack.push, LinkedListStack.pop, Node.data, Node.next]

/-- Claim C2: push postcondition — `push v` wraps `v` in a node whose next
link is the previous top, makes that node the new top, and increments the
count by exactly 1; consequently, pushing a nonempty sequence `vs` onto a
fresh stack with no interleaved pops gives `len = vs.length` and peak
returning the last pushed value. -/
theorem claim_C2_push_postcondition {T : Type} (s : LinkedListStack T)
    (v : T) (vs : List T) (hvs : vs ≠ []) :
    (s.push v).top = some (Node.mk v s.top) ∧
    (s.push v).len = s.len + 1 ∧
    (pushAll LinkedListStack.new vs).len = vs.length ∧
    (pushAll LinkedListStack.new vs).peak = vs.getLast? := by
  refine ⟨rfl, rfl, ?_, pushAll_peak vs LinkedListStack.new hvs⟩
  rw [pushAll_len]
  simp [LinkedListStack.new]

/-- Witness for C2 at `s = new`, `v = 5`, `vs = [1, 2, 3]`. -/
theorem claim_C2_witness :
    ((LinkedListStack.new (T := Nat)).push 5).top
        = some (Node.mk 5 (LinkedListStack.new (T := Nat)).top) ∧
    ((LinkedListStack.new (T := Nat)).push 5).len
        = (LinkedListStack.new (T := Nat)).len + 1 ∧
    (pushAll (LinkedListStack.new (T := Nat)) [1, 2, 3]).len
        = [1, 2, 3].length ∧
    (pushAll (LinkedListStack.new (T := Nat)) [1, 2, 3]).peak
        = [1, 2, 3].getLast? :=
  claim_C2_push_postcondition LinkedListStack.new 5 [1, 2, 3] (by simp)

/-- Claim C3: pop is the inverse of push — for every stack `s` and value
`v`, pushing `v` and then immediately popping returns `some v` and leaves
the stack with the same `len` and the same peak result as before the push. -/
theorem claim_C3_pop_inverts_push {T : Type} (s : LinkedListStack T)
    (v : T) :
    ((s.push v).pop).1 = some v ∧
    ((s.push v).pop).2.len = s.len ∧
    ((s.push v).pop).2.peak = s.peak := by
  simp [LinkedListStack.push, LinkedListStack.pop, LinkedListStack.peak,
    Node.data, Node.next]

/-- Claim C4: structural invariants — in every state reachable by any
sequence of new/push/pop, the stored `len` equals the number of nodes
reachable from `top` by following next-links, and `top` is none if and
only if the count is 0. -/
theorem claim_C4_structural_invariants {T : Type} (s : LinkedListStack T)
    (h : Reachable s) :
    s.len = chainCount s.top ∧ (s.top = none ↔ s.len = 0) :=
  stack_inv h

/-- Witness for C4 at the reachable state `new.push 1`. -/
theorem claim_C4_witness :
    (LinkedListStack.new.push (1 : Nat)).len
        = chainCount (LinkedListStack.new.push (1 : Nat)).top ∧
    ((LinkedListStack.new.push (1 : Nat)).top = none ↔
        (LinkedListStack.new.push (1 : Nat)).len = 0) :=
  claim_C4_structural_invariants (LinkedListStack.new.push 1)
    (Reachable.push 1 Reachable.new)

/-- Claim C5: textual rendering — for every stack, display produces the
element values from top to bottom separated by the literal token `" -> "`
with no leading or trailing separator (`joinSep`, modelled from the spec's
words); in particular an empty stack renders as `""`, a one-element stack
containing 1 renders as `"1"`, and pushing 1, 2, 3 in order renders as
`"3 -> 2 -> 1"`. -/
theorem claim_C5_display_rendering :
    (∀ (T : Type) (inst : ToString T) (s : LinkedListStack T),
        @LinkedListStack.display T inst s
          = joinSep " -> " ((chainList s.top).map (@toString T inst))) ∧
    (LinkedListStack.new (T := Nat)).display = "" ∧
    ((LinkedListStack.new (T := Nat)).push 1).display = "1" ∧
    ((((LinkedListStack.new (T := Nat)).push 1).push 2).push 3).display
        = "3 -> 2 -> 1" := by
  refine ⟨fun T inst s => fmtLoop_true_eq s.top, ?_, ?_, ?_⟩
  · simp [LinkedListStack.display, LinkedListStack.new, fmtLoop]
  · simp [LinkedListStack.display, LinkedListStack.new,
      LinkedListStack.push, fmtLoop]
    decide
  · simp [LinkedListStack.display, LinkedListStack.new,
      LinkedListStack.push, fmtLoop]
    decide

/-- Claim C6: popping an empty stack returns no value and does not change
`len`, which remains 0.  (Empty on a reachable state means `is_empty`,
i.e. `len == 0`.) -/
theorem claim_C6_pop_empty {T : Type} (s : LinkedListStack T)
    (h : Reachable s) (he : s.is_empty = true) :
    (s.pop).1 = none ∧ (s.pop).2.len = s.len ∧ s.len = 0 := by
  have hl : s.len = 0 := by
    simpa [LinkedListStack.is_empty] using he
  have htop : s.top = none := (stack_inv h).2.mpr hl
  simp [LinkedListStack.pop, htop, hl]

/-- Witness for C6 at the empty stack `new`. -/
theorem claim_C6_witness :
    ((LinkedListStack.new (T := Nat)).pop).1 = none ∧
    ((LinkedListStack.new (T := Nat)).pop).2.len
        = (LinkedListStack.new (T := Nat)).len ∧
    (LinkedListStack.new (T := Nat)).len = 0 :=
  claim_C6_pop_empty LinkedListStack.new Reachable.new rfl

/-- Claim C7: peeking an empty stack returns no value.  Non-mutation is
inherent in the embedding: `peak` embeds a `&self` method as a pure
function of the state that returns no modified state, so `top` and `len`
are unchanged by construction. -/
theorem claim_C7_peak_empty {T : Type} (s : LinkedListStack T)
    (h : Reachable s) (he : s.is_empty = true) :
    s.peak = none := by
  have hl : s.len = 0 := by
    simpa [LinkedListStack.is_empty] using he
  have htop : s.top = none := (stack_inv h).2.mpr hl
  simp [LinkedListStack.peak, htop]

/-- Witness for C7 at the empty stack `new`. -/
theorem claim_C7_witness : (LinkedListStack.new (T := Nat)).peak = none :=
  claim_C7_peak_empty LinkedListStack.new Reachable.new rfl

/-- Claim C8: consistency of emptiness — in every reachable state,
`is_empty` returns true exactly when `len = 0`, and this is equivalent to
`top` being none. -/
theorem claim_C8_is_empty_consistent {T : Type} (s : LinkedListStack T)
    (h : Reachable s) :
    (s.is_empty = true ↔ s.len = 0) ∧
    (s.is_empty = true ↔ s.top = none) := by
  have hiff := (stack_inv h).2
  constructor
  · simp [LinkedListStack.is_empty]
  · simp only [LinkedListStack.is_empty, beq_iff_eq]
    exact hiff.symm

/-- Witness for C8 at the reachable state `new`. -/
theorem claim_C8_witness :
    ((LinkedListStack.new (T := Nat)).is_empty = true ↔
        (LinkedListStack.new (T := Nat)).len = 0) ∧
    ((LinkedListStack.new (T := Nat)).is_empty = true ↔
        (LinkedListStack.new (T := Nat)).top = none) :=
  claim_C8_is_empty_consistent LinkedListStack.new Reachable.new

/-- Claim C9: atomicity of pop on empty — when pop is called on a stack
whose `top` is none, the entire state is unchanged (including `top`
remaining none), so any sequence of failed pops is observationally a
no-op. -/
theorem claim_C9_pop_empty_noop {T : Type} (s : LinkedListStack T)
    (h : s.top = none) :
    s.pop = (none, s) := by
  cases s with
  | mk top len =>
    simp only at h
    subst h
    simp [LinkedListStack.pop]

/-- Witness for C9 at the empty stack `new`. -/
theorem claim_C9_witness :
    (LinkedListStack.new (T := Nat)).pop
        = (none, LinkedListStack.new (T := Nat)) :=
  claim_C9_pop_empty_noop LinkedListStack.new rfl

/-- Claim C10: safety of the length decrement — the decrement in pop
executes only when `top` holds some node, and in every reachable such
state `len` is at least 1, so the unsigned subtraction `len - 1` never
underflows. -/
theorem claim_C10_decrement_safe {T : Type} (s : LinkedListStack T)
    (n : Node T) (h : Reachable s) (ht : s.top = some n) :
    1 ≤ s.len := by
  have hc := (stack_inv h).1
  rw [ht] at hc
  cases n with
  | mk d next =>
    rw [hc]
    simp [chainCount]

/-- Witness for C10 at the reachable state `new.push 1`. -/
theorem claim_C10_witness : 1 ≤ (LinkedListStack.new.push (1 : Nat)).len :=
  claim_C10_decrement_safe (LinkedListStack.new.push 1) (Node.mk 1 none)
    (Reachable.push 1 Reachable.new) rfl

end DataStructures
